import Mathlib

/-!
Shallow embedding of the rustris core (src/game.rs): piece geometry, the
board, collision, line clearing and the game aggregate.  Machine integers
are modelled as `Int`/`Nat` with explicit two's-complement reduction where
the source casts between `i32` and `usize`; `i32` arithmetic wraps
(release-mode semantics).  The process clock is passed explicitly, in
milliseconds, and the fallible `SystemTime::duration_since(..).unwrap()`
is modelled as an `Option`: `none` marks the panic on a backward clock.
Randomness is passed explicitly: game steps take the freshly sampled
prepared shape as an argument.
-/

/-- The four palette colors used by the game (`COLORS` in the source). -/
inductive Color where
  | red
  | green
  | blue
  | yellow
deriving DecidableEq

abbrev Cell := Option Color

/-- `GameState` from the source. -/
inductive GameState where
  | READY
  | RUNNING
  | LOST
deriving DecidableEq

/-- `Tetromino` from the source: only these five kinds exist. -/
inductive Tetromino where
  | O
  | L
  | I
  | S
  | T
deriving DecidableEq

/-- Reduce an integer into the `i32` range, two's-complement style. -/
def toI32 (z : Int) : Int := (z + 2 ^ 31) % 2 ^ 32 - 2 ^ 31

/-- The value fits in an `i32`. -/
def InI32 (z : Int) : Prop := -(2 ^ 31) ≤ z ∧ z < 2 ^ 31

instance (z : Int) : Decidable (InI32 z) := by
  unfold InI32
  infer_instance

/-- `i32` negation (wrapping at `i32::MIN`). -/
def i32neg (z : Int) : Int := toI32 (-z)

/-- `i32` addition (wrapping). -/
def i32add (a b : Int) : Int := toI32 (a + b)

/-- `usize as i32`: truncate to 32 bits and reinterpret as signed. -/
def usizeToI32 (n : Nat) : Int := toI32 n

/-- `i32 as usize`: sign-extend to 64 bits and reinterpret as unsigned. -/
def i32ToUsize (z : Int) : Nat := (z % 2 ^ 64).toNat

/-- `RelPoint`: a signed relative offset of a piece cell from its pivot. -/
structure RelPoint where
  dx : Int
  dy : Int
deriving DecidableEq

/-- `RelPoint::rotate`: `(self.dy, self.dx) = (self.dx, -self.dy)`,
so the new `dx` is the negated old `dy` and the new `dy` is the old `dx`. -/
def RelPoint.rotate (p : RelPoint) : RelPoint :=
  { dx := i32neg p.dy, dy := p.dx }

/-- `RelPoint::mirror`: `self.dx *= -1`. -/
def RelPoint.mirror (p : RelPoint) : RelPoint :=
  { p with dx := i32neg p.dx }

/-- `Point`: an absolute (unsigned) grid coordinate. -/
structure Point where
  x : Nat
  y : Nat
deriving DecidableEq

/-- `RelPoint::to_abs`: `(point.x as i32 + self.dx) as usize` on both axes. -/
def RelPoint.toAbs (p : RelPoint) (loc : Point) : Point :=
  { x := i32ToUsize (i32add (usizeToI32 loc.x) p.dx)
  , y := i32ToUsize (i32add (usizeToI32 loc.y) p.dy) }

/-- `Point::add`: `(self.x as i32 + x) as usize` on both axes. -/
def Point.add (p : Point) (x y : Int) : Point :=
  { x := i32ToUsize (i32add (usizeToI32 p.x) x)
  , y := i32ToUsize (i32add (usizeToI32 p.y) y) }

/-- `Shape`: a piece kind plus its relative offsets (always 4 in the source,
where `points` is a `[RelPoint; 4]`). -/
structure Shape where
  name : Tetromino
  points : List RelPoint
deriving DecidableEq

/-- `Shape::rotate`: a no-op for the O kind, otherwise rotates every offset. -/
def Shape.rotate (s : Shape) : Shape :=
  match s.name with
  | Tetromino.O => s
  | _ => { s with points := s.points.map RelPoint.rotate }

/-- `Shape::mirror`: mirrors every offset. -/
def Shape.mirror (s : Shape) : Shape :=
  { s with points := s.points.map RelPoint.mirror }

/-- Catalog entry `I` from the `SHAPES` table. -/
def shapeI : Shape := ⟨Tetromino.I, [⟨0, 0⟩, ⟨0, 1⟩, ⟨0, -1⟩, ⟨0, -2⟩]⟩

/-- Catalog entry `O` from the `SHAPES` table. -/
def shapeO : Shape := ⟨Tetromino.O, [⟨0, 0⟩, ⟨0, 1⟩, ⟨1, 0⟩, ⟨1, 1⟩]⟩

/-- Catalog entry `S` from the `SHAPES` table. -/
def shapeS : Shape := ⟨Tetromino.S, [⟨0, 0⟩, ⟨0, 1⟩, ⟨-1, 0⟩, ⟨-1, -1⟩]⟩

/-- Catalog entry `L` from the `SHAPES` table. -/
def shapeL : Shape := ⟨Tetromino.L, [⟨0, 1⟩, ⟨1, 1⟩, ⟨1, 0⟩, ⟨1, -1⟩]⟩

/-- Catalog entry `T` from the `SHAPES` table. -/
def shapeT : Shape := ⟨Tetromino.T, [⟨0, 0⟩, ⟨0, 1⟩, ⟨0, -1⟩, ⟨1, 0⟩]⟩

/-- `PreparedShape`: the next-piece preview. -/
structure PreparedShape where
  shape : Shape
  color : Color
deriving DecidableEq

/-- `SpawnedShape`: the currently falling piece. -/
structure SpawnedShape where
  shape : Shape
  loc : Point
  color : Color
deriving DecidableEq

/-- `Tetris<W, H>`: the game aggregate.  The `W`/`H` const generics become
fields; the Rust types guarantee `field` is an `H × W` matrix. -/
structure Tetris where
  W : Nat
  H : Nat
  field : List (List Cell)
  next : PreparedShape
  falling : SpawnedShape
  state : GameState
  score : Nat
  sinceStep : Nat
  isSpedUp : Bool
deriving DecidableEq

/-- `Tetris::starting_point`: `(W / 2, 5)`. -/
def startingPoint (W : Nat) : Point := ⟨W / 2, 5⟩

/-- The 4 absolute cells of a shape at a location (`ShapeIter`'s traversal). -/
def shapeCells (s : Shape) (loc : Point) : List Point :=
  s.points.map (fun p => p.toAbs loc)

/-- Read a board cell (in-bounds reads match `self.field[y][x]`). -/
def Tetris.cellAt (g : Tetris) (p : Point) : Cell :=
  (g.field.getD p.y []).getD p.x none

/-- `Tetris::can_place_at`: fails iff some absolute cell of the shape has
`y >= H`, `x >= W`, or is occupied (`ShapeIter::any` is a traversal of the
4 absolute cells, embedded as `List.any` over `shapeCells`). -/
def Tetris.canPlaceAt (g : Tetris) (s : Shape) (loc : Point) : Bool :=
  !((shapeCells s loc).any fun p =>
    decide (g.H ≤ p.y) || decide (g.W ≤ p.x) || (g.cellAt p).isSome)

/-- A row is fully occupied along its first `W` columns
(body of `Tetris::is_row_packed`). -/
def rowFull (W : Nat) (row : List Cell) : Bool :=
  (List.range W).all fun x => (row.getD x none).isSome

/-- `Tetris::is_row_packed`. -/
def isRowPacked (W : Nat) (f : List (List Cell)) (y : Nat) : Bool :=
  rowFull W (f.getD y [])

/-- `slice::swap` of two rows; out-of-range indices leave the list unchanged
(the source would panic there; the claims show that case is unreachable). -/
def listSwap (f : List α) (i j : Nat) : List α :=
  match f[i]?, f[j]? with
  | some a, some b => (f.set i b).set j a
  | _, _ => f

/-- `row.fill(None)` on an array row: every element becomes empty. -/
def emptyRowOf (row : List Cell) : List Cell :=
  row.map fun _ => none

/-- An empty row of width `W` (what `fill(None)` leaves on a width-`W` row). -/
def emptyRow (W : Nat) : List Cell := List.replicate W none

/-- The loop of `Tetris::destroy_full_rows`: the `Nat` argument is the number
of indices still to scan, so it processes `y = fuel - 1` down to `0`, and
`m` is the running count of removed rows (`moving` in the source). -/
def destroyAux (W : Nat) : List (List Cell) → Nat → Nat → List (List Cell) × Nat
  | f, 0, m => (f, m)
  | f, y + 1, m =>
    if isRowPacked W (listSwap f y (y + m)) (y + m) then
      destroyAux W
        ((listSwap f y (y + m)).set (y + m)
          (emptyRowOf ((listSwap f y (y + m)).getD (y + m) []))) y (m + 1)
    else
      destroyAux W (listSwap f y (y + m)) y m

/-- `Tetris::destroy_full_rows` on a raw field: returns the new field and the
number of removed rows (the score delta). -/
def destroyFullRows (W H : Nat) (f : List (List Cell)) : List (List Cell) × Nat :=
  destroyAux W f H 0

/-- Instrumented bounds checker for `destroy_full_rows`: replays the exact
scan of `destroyAux` and returns `true` iff at every iteration the target
index `y + moving` is inside the field, so every row swap, row-full check
and row fill of the source indexes in bounds. -/
def destroyAuxChk (W : Nat) : List (List Cell) → Nat → Nat → Bool
  | _, 0, _ => true
  | f, y + 1, m =>
    decide (y + m < f.length) &&
      (if isRowPacked W (listSwap f y (y + m)) (y + m) then
        destroyAuxChk W
          ((listSwap f y (y + m)).set (y + m)
            (emptyRowOf ((listSwap f y (y + m)).getD (y + m) []))) y (m + 1)
      else
        destroyAuxChk W (listSwap f y (y + m)) y m)

/-- Write one cell of the falling piece into the board. -/
def writeCell (f : List (List Cell)) (p : Point) (c : Color) : List (List Cell) :=
  f.set p.y ((f.getD p.y []).set p.x (some c))

/-- The board after the falling piece's 4 absolute cells are written with its
color (the `for_each_mut` closure in `Tetris::ground_falling_shape`). -/
def Tetris.writtenField (g : Tetris) : List (List Cell) :=
  (shapeCells g.falling.shape g.falling.loc).foldl
    (fun f p => writeCell f p g.falling.color) g.field

/-- `Tetris::loose`. -/
def Tetris.loose (g : Tetris) : Tetris := { g with state := GameState.LOST }

/-- `Tetris::spawn_new_shape`: the previous preview becomes the falling piece
at the starting point, the freshly sampled `fresh` becomes the new preview,
and a blocked spawn loses the game. -/
def Tetris.spawnNewShape (g : Tetris) (fresh : PreparedShape) : Tetris :=
  let g' := { g with
    falling := ⟨g.next.shape, startingPoint g.W, g.next.color⟩
    next := fresh }
  if g'.canPlaceAt g'.falling.shape g'.falling.loc then g' else g'.loose

/-- `Tetris::ground_falling_shape`: write the piece, clear full rows adding
the removed-row count to the score, then spawn the next piece. -/
def Tetris.groundFallingShape (g : Tetris) (fresh : PreparedShape) : Tetris :=
  Tetris.spawnNewShape
    { g with
      field := (destroyFullRows g.W g.H g.writtenField).1
      score := g.score + (destroyFullRows g.W g.H g.writtenField).2 } fresh

/-- `Tetris::step`: no-op unless RUNNING; move the falling piece one row down
when the cell below is placeable, otherwise ground it. -/
def Tetris.step (g : Tetris) (fresh : PreparedShape) : Tetris :=
  if g.state = GameState.RUNNING then
    let futurePos := g.falling.loc.add 0 1
    if g.canPlaceAt g.falling.shape futurePos then
      { g with falling := { g.falling with loc := ⟨g.falling.loc.x, g.falling.loc.y + 1⟩ } }
    else
      g.groundFallingShape fresh
  else g

/-- `SystemTime::duration_since`: defined only when `earlier ≤ now`;
`none` models the `Err` that `receive_tick` unwraps (a panic). -/
def durationSince (now earlier : Nat) : Option Nat :=
  if earlier ≤ now then some (now - earlier) else none

/-- `Tetris::receive_tick` with the clock reading passed explicitly:
`none` models the panic of `duration_since(..).unwrap()` on a backward
clock; otherwise step once when the elapsed milliseconds strictly exceed
the gravity interval (100 when sped up, else 1000) and reset the
timestamp to `now`. -/
def Tetris.receiveTick (g : Tetris) (now : Nat) (fresh : PreparedShape) : Option Tetris :=
  match durationSince now g.sinceStep with
  | none => none
  | some elapsed =>
    if (if g.isSpedUp then 100 else 1000) < elapsed then
      some { g.step fresh with sinceStep := now }
    else some g

/-- `Tetris::receive_left`. -/
def Tetris.receiveLeft (g : Tetris) : Tetris :=
  if g.state = GameState.RUNNING then
    let futureLoc := g.falling.loc.add (-1) 0
    if g.canPlaceAt g.falling.shape futureLoc then
      { g with falling := { g.falling with loc := futureLoc } }
    else g
  else g

/-- `Tetris::receive_right`. -/
def Tetris.receiveRight (g : Tetris) : Tetris :=
  if g.state = GameState.RUNNING then
    let futureLoc := g.falling.loc.add 1 0
    if g.canPlaceAt g.falling.shape futureLoc then
      { g with falling := { g.falling with loc := futureLoc } }
    else g
  else g

/-- `Tetris::receive_rotate`: rotate a clone, commit only when placeable at
the current location. -/
def Tetris.receiveRotate (g : Tetris) : Tetris :=
  if g.state = GameState.RUNNING then
    let futureShape := g.falling.shape.rotate
    if g.canPlaceAt futureShape g.falling.loc then
      { g with falling := { g.falling with shape := futureShape } }
    else g
  else g

/-- `Tetris::receive_down_press`: sets the soft-drop flag, only when RUNNING. -/
def Tetris.receiveDownPress (g : Tetris) : Tetris :=
  if g.state = GameState.RUNNING then { g with isSpedUp := true } else g

/-- `Tetris::receive_down_release`: clears the soft-drop flag unconditionally. -/
def Tetris.receiveDownRelease (g : Tetris) : Tetris :=
  { g with isSpedUp := false }

/-- `Tetris::start`: unconditionally sets the state to RUNNING. -/
def Tetris.start (g : Tetris) : Tetris := { g with state := GameState.RUNNING }

/-! ### Concrete states used by witnesses and counterexamples -/

/-- An empty 3-wide, 4-high board. -/
def emptyField34 : List (List Cell) := List.replicate 4 (List.replicate 3 none)

/-- A sample freshly drawn prepared piece (the explicit random input). -/
def freshT : PreparedShape := ⟨shapeT, Color.red⟩

/-- A small concrete running game: empty 3×4 board, T piece at (1,1). -/
def gRun : Tetris :=
  { W := 3, H := 4, field := emptyField34
  , next := ⟨shapeL, Color.green⟩
  , falling := ⟨shapeT, ⟨1, 1⟩, Color.blue⟩
  , state := GameState.RUNNING, score := 0, sinceStep := 0, isSpedUp := false }

/-- The same game after the state has become LOST. -/
def gLost : Tetris := { gRun with state := GameState.LOST }

/-- The same game still in READY state. -/
def gReady : Tetris := { gRun with state := GameState.READY }

/-- The same game with a stored last-step timestamp of 1000 ms. -/
def gLateClock : Tetris := { gRun with sinceStep := 1000 }

/-- The READY game after a tick at clock reading 1001 ms. -/
def gReadyTicked : Tetris := { gReady with sinceStep := 1001 }

/-- A concrete 2-wide, 3-high board whose rows 0 and 2 are full. -/
def fBoard : List (List Cell) :=
  [[some Color.red, some Color.red],
   [none, some Color.red],
   [some Color.blue, some Color.blue]]

/-! ### Helper lemmas -/

/-- `i32` negation is an involution on values in the `i32` range. -/
theorem i32neg_i32neg (z : Int) (h : InI32 z) : i32neg (i32neg z) = z := by
  unfold InI32 at h
  unfold i32neg toI32
  omega

/-- One offset rotation applied four times is the identity (on offsets whose
coordinates fit in an `i32`, as the Rust type guarantees). -/
theorem relPoint_rotate_four (p : RelPoint) (h1 : InI32 p.dx) (h2 : InI32 p.dy) :
    p.rotate.rotate.rotate.rotate = p := by
  cases p with
  | mk dx dy =>
    simp only [RelPoint.rotate]
    simp_all [i32neg_i32neg]

/-- `Shape::rotate` on a non-O shape rotates every offset. -/
theorem shape_rotate_of_ne_O (s : Shape) (h : s.name ≠ Tetromino.O) :
    s.rotate = { s with points := s.points.map RelPoint.rotate } := by
  cases s with
  | mk name points =>
    cases name
    · exact absurd rfl h
    all_goals rfl

/-- `step` is a no-op unless the state is RUNNING. -/
theorem step_not_running (g : Tetris) (fresh : PreparedShape)
    (h : g.state ≠ GameState.RUNNING) : g.step fresh = g := by
  unfold Tetris.step
  rw [if_neg h]

/-- A non-faulting tick either performs one step and resets the timestamp,
or leaves the game untouched. -/
theorem receiveTick_cases (g : Tetris) (now : Nat) (fresh : PreparedShape)
    (g' : Tetris) (htick : g.receiveTick now fresh = some g') :
    g' = { g.step fresh with sinceStep := now } ∨ g' = g := by
  unfold Tetris.receiveTick at htick
  split at htick
  · cases htick
  · split at htick
    all_goals split at htick
    all_goals first
      | exact Or.inl (Option.some_inj.mp htick).symm
      | exact Or.inr (Option.some_inj.mp htick).symm

/-- Setting an index to the element already there is the identity. -/
theorem set_getElem?_self (f : List α) (i : Nat) (a : α) (h : f[i]? = some a) :
    f.set i a = f := by
  induction f generalizing i with
  | nil => simp at h
  | cons b t ih =>
    cases i with
    | zero =>
      simp only [List.getElem?_cons_zero, Option.some_inj] at h
      simp [h]
    | succ k =>
      simp only [List.getElem?_cons_succ] at h
      simp [ih k h]

/-- Swapping an index with itself changes nothing. -/
theorem listSwap_self (f : List α) (i : Nat) : listSwap f i i = f := by
  unfold listSwap
  split
  · rename_i a b h1 h2
    rw [h1] at h2
    obtain rfl := Option.some_inj.mp h2
    rw [List.set_set]
    exact set_getElem?_self f i a h1
  all_goals rfl

/-- Lookup at the stitch point of an append. -/
theorem getElem?_append_middle (l : List α) (a : α) (rest : List α) :
    (l ++ a :: rest)[l.length]? = some a := by
  rw [List.getElem?_append_right (Nat.le_refl _)]
  simp

/-- Setting at the stitch point of an append. -/
theorem set_append_middle (l : List α) (a c : α) (rest : List α) :
    (l ++ a :: rest).set l.length c = l ++ c :: rest := by
  rw [List.set_append_right _ _ (Nat.le_refl _)]
  simp

/-- Setting past a middle block of an append. -/
theorem set_append_block (l mid rest : List α) (a c : α) :
    (l ++ (mid ++ a :: rest)).set (l.length + mid.length) c =
      l ++ (mid ++ c :: rest) := by
  rw [List.set_append_right _ _ (by omega)]
  congr 1
  rw [Nat.add_sub_cancel_left]
  exact set_append_middle mid a c rest

/-- `getD` past a middle block of an append. -/
theorem getD_append_block (l mid rest : List α) (a d : α) :
    (l ++ (mid ++ a :: rest)).getD (l.length + mid.length) d = a := by
  rw [List.getD_eq_getElem?_getD]
  rw [List.getElem?_append_right (by omega)]
  rw [Nat.add_sub_cancel_left]
  rw [getElem?_append_middle]
  rfl

/-- The row swap of one scan iteration, in block form. -/
theorem listSwap_block (l mid rest : List α) (a b : α) :
    listSwap (l ++ a :: (mid ++ b :: rest)) l.length (l.length + (mid.length + 1)) =
      l ++ b :: (mid ++ a :: rest) := by
  have hi : (l ++ a :: (mid ++ b :: rest))[l.length]? = some a :=
    getElem?_append_middle l a (mid ++ b :: rest)
  have hj : (l ++ a :: (mid ++ b :: rest))[l.length + (mid.length + 1)]? = some b := by
    rw [List.getElem?_append_right (by omega)]
    rw [Nat.add_sub_cancel_left]
    rw [List.getElem?_cons_succ]
    exact getElem?_append_middle mid b rest
  unfold listSwap
  rw [hi, hj]
  show ((l ++ a :: (mid ++ b :: rest)).set l.length b).set
      (l.length + (mid.length + 1)) a = l ++ b :: (mid ++ a :: rest)
  rw [set_append_middle l a b (mid ++ b :: rest)]
  rw [List.set_append_right _ _ (by omega)]
  rw [Nat.add_sub_cancel_left]
  simp only [List.set_cons_succ]
  rw [set_append_middle mid b a rest]

/-- In a field shaped as untouched prefix, emptied block, settled suffix,
one iteration's swap moves the scanned row past the emptied block. -/
theorem swap_step (l rest : List (List Cell)) (a E : List Cell) (m : Nat) :
    listSwap (l ++ a :: (List.replicate m E ++ rest)) l.length (l.length + m) =
      l ++ (List.replicate m E ++ a :: rest) := by
  cases m with
  | zero => simpa using listSwap_self (l ++ a :: rest) l.length
  | succ k =>
    have h1 : List.replicate (k + 1) E ++ rest = List.replicate k E ++ (E :: rest) := by
      rw [List.replicate_succ']
      simp
    rw [h1]
    have h2 := listSwap_block l (List.replicate k E) rest a E
    rw [List.length_replicate] at h2
    rw [h2]
    simp [List.replicate_succ]

/-- Loop invariant of `destroy_full_rows`: scanning the remaining prefix
`orig` with `m` rows already removed (sitting as an emptied block between
the prefix and the settled suffix `S`) removes exactly the full rows of
`orig`, settles its non-full rows above `S` in order, and returns the
total removal count. -/
theorem destroyAux_invariant (W : Nat) (orig : List (List Cell)) :
    ∀ (m : Nat) (S : List (List Cell)), (∀ r ∈ orig, r.length = W) →
      destroyAux W (orig ++ (List.replicate m (emptyRow W) ++ S)) orig.length m =
        (List.replicate (m + (orig.filter (fun r => rowFull W r)).length) (emptyRow W) ++
            (orig.filter (fun r => !rowFull W r) ++ S),
          m + (orig.filter (fun r => rowFull W r)).length) := by
  induction orig using List.reverseRecOn with
  | nil =>
    intro m S h
    simp [destroyAux]
  | append_singleton l a ih =>
    intro m S h
    have ha : a.length = W := h a (by simp)
    have hE : emptyRowOf a = emptyRow W := by
      rw [emptyRowOf, emptyRow, List.map_const', ha]
    have hfield : (l ++ [a]) ++ (List.replicate m (emptyRow W) ++ S) =
        l ++ (a :: (List.replicate m (emptyRow W) ++ S)) := by simp
    have hlen : (l ++ [a]).length = l.length + 1 := by simp
    rw [hfield, hlen]
    simp only [destroyAux]
    rw [swap_step]
    have hget := getD_append_block l (List.replicate m (emptyRow W)) S a ([] : List Cell)
    rw [List.length_replicate] at hget
    have hpack : isRowPacked W (l ++ (List.replicate m (emptyRow W) ++ a :: S))
        (l.length + m) = rowFull W a := by
      rw [isRowPacked, hget]
    rw [hpack, hget, hE]
    have hset := set_append_block l (List.replicate m (emptyRow W)) S a (emptyRow W)
    rw [List.length_replicate] at hset
    rw [hset]
    cases hfull : rowFull W a with
    | true =>
      rw [if_pos rfl]
      have hrep : List.replicate m (emptyRow W) ++ emptyRow W :: S =
          List.replicate (m + 1) (emptyRow W) ++ S := by
        rw [List.replicate_succ']
        simp
      rw [hrep]
      rw [ih (m + 1) S (fun r hr => h r (by simp [hr]))]
      simp only [List.filter_append, List.filter_singleton, hfull]
      simp only [Bool.not_true, if_true, if_false]
      simp only [List.length_append, List.length_singleton, List.length_nil]
      have harith : m + 1 + (List.filter (fun r => rowFull W r) l).length =
          m + ((List.filter (fun r => rowFull W r) l).length + 1) := by omega
      rw [harith]
      simp
    | false =>
      rw [if_neg (by simp)]
      rw [ih m (a :: S) (fun r hr => h r (by simp [hr]))]
      simp only [List.filter_append, List.filter_singleton, hfull]
      simp only [Bool.not_false, if_true, if_false]
      simp

/-- Closed form of `destroy_full_rows` on a well-formed `H × W` field. -/
theorem destroyFullRows_closed (W H : Nat) (f : List (List Cell)) (hH : f.length = H)
    (hW : ∀ r ∈ f, r.length = W) :
    destroyFullRows W H f =
      (List.replicate (f.filter (fun r => rowFull W r)).length (emptyRow W) ++
        f.filter (fun r => !rowFull W r),
       (f.filter (fun r => rowFull W r)).length) := by
  have h := destroyAux_invariant W f 0 [] hW
  rw [destroyFullRows, ← hH]
  simpa using h

/-- Swapping rows preserves the field's length. -/
theorem listSwap_length (f : List α) (i j : Nat) : (listSwap f i j).length = f.length := by
  unfold listSwap
  split
  · simp
  · rfl

/-- The scan's accesses stay in bounds whenever the remaining fuel plus the
removal count is at most the field length. -/
theorem destroyAuxChk_bounded (W fuel : Nat) :
    ∀ (f : List (List Cell)) (m : Nat), fuel + m ≤ f.length →
      destroyAuxChk W f fuel m = true := by
  induction fuel with
  | zero =>
    intro f m h
    rfl
  | succ y ih =>
    intro f m h
    have hlen : (listSwap f y (y + m)).length = f.length := listSwap_length f y (y + m)
    unfold destroyAuxChk
    rw [Bool.and_eq_true]
    refine ⟨decide_eq_true (by omega), ?_⟩
    split
    · exact ih _ _ (by rw [List.length_set, hlen]; omega)
    · exact ih _ _ (by rw [hlen]; omega)


/-! ### Claims -/

/-- Claim C1 (code bug): `receive_tick` faults whenever the clock reading is
strictly before the stored last-step timestamp — the `unwrap` of
`duration_since` panics (modelled as `none`) instead of clamping the
elapsed time to zero and completing normally. -/
theorem receiveTick_panics_on_backward_clock (g : Tetris) (now : Nat)
    (fresh : PreparedShape) (h : now < g.sinceStep) :
    g.receiveTick now fresh = none := by
  unfold Tetris.receiveTick durationSince
  rw [if_neg (by omega)]

/-- Witness for C1 at a concrete input: stored timestamp 1000 ms, clock
reading 999 ms. -/
theorem receiveTick_panics_on_backward_clock_witness :
    999 < gLateClock.sinceStep ∧ gLateClock.receiveTick 999 freshT = none :=
  ⟨by decide, receiveTick_panics_on_backward_clock gLateClock 999 freshT (by decide)⟩

/-- Claim C2 counterexample: at offset (dx,dy) = (0,1) a single `rotate`
yields dx = −1, not dx = old dy = 1 as the claimed map (dx,dy) → (dy, −dx)
demands. -/
theorem relPoint_rotate_claim_counterexample :
    (RelPoint.rotate ⟨0, 1⟩).dx = -1 ∧ (RelPoint.rotate ⟨0, 1⟩).dx ≠ 1 := by
  decide

/-- Claim C2 amended: `RelPoint::rotate` maps (dx,dy) to (−dy, dx) — the new
`dx` equals the negation of the old `dy` (exactly so for any old `dy` above
`i32::MIN`, where negation wraps) and the new `dy` equals the old `dx`. -/
theorem relPoint_rotate_spec (p : RelPoint) (h1 : -(2 ^ 31) < p.dy)
    (h2 : p.dy < 2 ^ 31) :
    (p.rotate).dx = -p.dy ∧ (p.rotate).dy = p.dx := by
  constructor
  · show i32neg p.dy = -p.dy
    unfold i32neg toI32
    omega
  · rfl

/-- Witness for the amended C2 at the concrete offset (0, 1). -/
theorem relPoint_rotate_spec_witness :
    -(2 ^ 31) < (1 : Int) ∧ (1 : Int) < 2 ^ 31 ∧
      ((RelPoint.rotate ⟨0, 1⟩).dx = -1 ∧ (RelPoint.rotate ⟨0, 1⟩).dy = 0) :=
  ⟨by norm_num, by norm_num, relPoint_rotate_spec ⟨0, 1⟩ (by norm_num) (by norm_num)⟩

/-- Claim C8: `receive_down_release` clears the soft-drop flag in every state
(READY and LOST included) and changes nothing else, while
`receive_down_press` sets the flag exactly when the state is RUNNING and is
ignored otherwise. -/
theorem down_press_release_spec (g : Tetris) :
    (g.receiveDownRelease).isSpedUp = false ∧
    g.receiveDownRelease = { g with isSpedUp := false } ∧
    g.receiveDownPress =
      (if g.state = GameState.RUNNING then { g with isSpedUp := true } else g) :=
  ⟨rfl, rfl, rfl⟩

/-- Claim C4: `can_place_at` succeeds iff every absolute cell of the shape
(each relative offset applied to the location) has row < height and
column < width and is unoccupied; it fails whenever any cell is out of
bounds or occupied.  The embedding is a pure function of the state (the
source takes `&self`), so it mutates nothing. -/
theorem canPlaceAt_iff (g : Tetris) (s : Shape) (loc : Point) :
    g.canPlaceAt s loc = true ↔
      ∀ p ∈ shapeCells s loc, p.y < g.H ∧ p.x < g.W ∧ g.cellAt p = none := by
  unfold Tetris.canPlaceAt
  simp [List.any_eq_false, not_or, and_assoc]

/-- Claim C9: four applications of `Shape::rotate` restore any non-O shape
exactly — the very offset list, hence in particular the set of offsets —
for shapes whose offsets fit in `i32`, as the Rust field type guarantees. -/
theorem shape_rotate_four_identity (s : Shape) (hO : s.name ≠ Tetromino.O)
    (hwf : ∀ p ∈ s.points, InI32 p.dx ∧ InI32 p.dy) :
    s.rotate.rotate.rotate.rotate = s := by
  have hid : ∀ p ∈ s.points,
      (RelPoint.rotate ∘ RelPoint.rotate ∘ RelPoint.rotate ∘ RelPoint.rotate) p = id p := by
    intro p hp
    simp only [Function.comp_apply, id_eq]
    exact relPoint_rotate_four p (hwf p hp).1 (hwf p hp).2
  cases s with
  | mk name points =>
    cases name
    case O => exact absurd rfl hO
    all_goals
      simp only [Shape.rotate, Shape.mk.injEq, List.map_map, true_and]
      rw [List.map_congr_left hid, List.map_id]

/-- Witness for C9 at the catalog T shape. -/
theorem shape_rotate_four_identity_witness :
    shapeT.name ≠ Tetromino.O ∧ (∀ p ∈ shapeT.points, InI32 p.dx ∧ InI32 p.dy) ∧
      shapeT.rotate.rotate.rotate.rotate = shapeT :=
  ⟨by decide, by decide, shape_rotate_four_identity shapeT (by decide) (by decide)⟩

/-- Claim C5 counterexample: in the concrete running game with the soft-drop
flag clear and elapsed time exactly 1000 ms (which is ≥ 1000), the tick does
NOT step — the source comparison `as_millis() > delay` is strict — and does
not reset the timestamp: the game comes back unchanged even though a step
would have moved the piece. -/
theorem receiveTick_exact_interval_counterexample :
    gRun.state = GameState.RUNNING ∧ gRun.isSpedUp = false ∧ gRun.sinceStep = 0 ∧
      gRun.receiveTick 1000 freshT = some gRun ∧ gRun.step freshT ≠ gRun :=
  ⟨rfl, rfl, rfl, by decide, by decide⟩

/-- Claim C5 amended: with state RUNNING and the soft-drop flag clear, a tick
whose elapsed time STRICTLY exceeds 1000 ms performs exactly one step —
moving the piece one row down when the cell below is placeable, otherwise
grounding it — and resets the last-step timestamp to `now`, discarding any
drift; elapsed exactly 1000 ms does nothing. -/
theorem receiveTick_strict_interval_step (g : Tetris) (now : Nat)
    (fresh : PreparedShape) (hrun : g.state = GameState.RUNNING)
    (hflag : g.isSpedUp = false) (hle : g.sinceStep ≤ now)
    (hgt : 1000 < now - g.sinceStep) :
    g.receiveTick now fresh = some { g.step fresh with sinceStep := now } ∧
    g.step fresh =
      (if g.canPlaceAt g.falling.shape (g.falling.loc.add 0 1) = true then
        { g with falling := { g.falling with loc := ⟨g.falling.loc.x, g.falling.loc.y + 1⟩ } }
      else g.groundFallingShape fresh) := by
  constructor
  · have hd : durationSince now g.sinceStep = some (now - g.sinceStep) := by
      unfold durationSince
      rw [if_pos hle]
    simp [Tetris.receiveTick, hd, hflag, hgt]
  · unfold Tetris.step
    rw [if_pos hrun]

/-- Witness for the amended C5: the concrete running game ticked at 1001 ms
steps the piece one row down and resets the timestamp. -/
theorem receiveTick_strict_interval_step_witness :
    gRun.state = GameState.RUNNING ∧ gRun.isSpedUp = false ∧ gRun.sinceStep ≤ 1001 ∧
      1000 < 1001 - gRun.sinceStep ∧
      (gRun.receiveTick 1001 freshT = some { gRun.step freshT with sinceStep := 1001 } ∧
        gRun.step freshT =
          (if gRun.canPlaceAt gRun.falling.shape (gRun.falling.loc.add 0 1) = true then
            { gRun with falling :=
              { gRun.falling with loc := ⟨gRun.falling.loc.x, gRun.falling.loc.y + 1⟩ } }
          else gRun.groundFallingShape freshT)) :=
  ⟨rfl, rfl, by decide, by decide,
    receiveTick_strict_interval_step gRun 1001 freshT rfl rfl (by decide) (by decide)⟩

/-- Claim C6 counterexample: `start()` called on a LOST game unconditionally
sets the state back to RUNNING, so a later transition out of LOST exists. -/
theorem start_leaves_LOST_counterexample :
    gLost.state = GameState.LOST ∧ (gLost.start).state = GameState.RUNNING :=
  ⟨rfl, rfl⟩

/-- Claim C6 amended: in the LOST state every movement/rotate/soft-drop
handler and every non-faulting tick keep the state LOST and leave the
board, the falling piece, the score (and the preview) unchanged; only an
explicit `start()` call leaves LOST, since it unconditionally sets RUNNING. -/
theorem lost_state_sticky_for_inputs (g g' : Tetris) (now : Nat)
    (fresh : PreparedShape) (h : g.state = GameState.LOST)
    (htick : g.receiveTick now fresh = some g') :
    g.receiveLeft = g ∧ g.receiveRight = g ∧ g.receiveRotate = g ∧
    g.receiveDownPress = g ∧ (g.receiveDownRelease).state = GameState.LOST ∧
    g'.state = GameState.LOST ∧ g'.field = g.field ∧ g'.falling = g.falling ∧
    g'.score = g.score ∧ g'.next = g.next := by
  have hne : g.state ≠ GameState.RUNNING := by
    rw [h]
    decide
  have hs : g.step fresh = g := step_not_running g fresh hne
  have hc := receiveTick_cases g now fresh g' htick
  rw [hs] at hc
  refine ⟨?_, ?_, ?_, ?_, ?_, ?_, ?_, ?_, ?_, ?_⟩
  · unfold Tetris.receiveLeft
    rw [if_neg hne]
  · unfold Tetris.receiveRight
    rw [if_neg hne]
  · unfold Tetris.receiveRotate
    rw [if_neg hne]
  · unfold Tetris.receiveDownPress
    rw [if_neg hne]
  · exact h
  · rcases hc with rfl | rfl <;> exact h
  · rcases hc with rfl | rfl <;> rfl
  · rcases hc with rfl | rfl <;> rfl
  · rcases hc with rfl | rfl <;> rfl
  · rcases hc with rfl | rfl <;> rfl

/-- Witness for the amended C6 at the concrete LOST game, ticked at 0 ms. -/
theorem lost_state_sticky_for_inputs_witness :
    gLost.state = GameState.LOST ∧ gLost.receiveTick 0 freshT = some gLost ∧
      (gLost.receiveLeft = gLost ∧ gLost.receiveRight = gLost ∧
        gLost.receiveRotate = gLost ∧ gLost.receiveDownPress = gLost ∧
        (gLost.receiveDownRelease).state = GameState.LOST ∧
        gLost.state = GameState.LOST ∧ gLost.field = gLost.field ∧
        gLost.falling = gLost.falling ∧ gLost.score = gLost.score ∧
        gLost.next = gLost.next) :=
  ⟨rfl, by decide, lost_state_sticky_for_inputs gLost gLost 0 freshT rfl (by decide)⟩

/-- Claim C7 counterexample: a tick in the READY state with elapsed 1001 ms
still updates the last-step timestamp (0 becomes 1001), so the aggregate is
not left entirely unchanged — `receive_tick` has no state guard of its own. -/
theorem receiveTick_nonrunning_timestamp_counterexample :
    gReady.state ≠ GameState.RUNNING ∧
      gReady.receiveTick 1001 freshT = some gReadyTicked ∧
      gReadyTicked.sinceStep ≠ gReady.sinceStep :=
  ⟨by decide, by decide, by decide⟩

/-- Claim C7 amended: a non-faulting tick in a non-RUNNING state leaves the
board, falling piece, preview, score, state and soft-drop flag unchanged,
but the last-step timestamp may still be reset to `now` (it is, whenever
the elapsed time exceeds the current gravity interval). -/
theorem receiveTick_nonrunning_frame (g g' : Tetris) (now : Nat)
    (fresh : PreparedShape) (h : g.state ≠ GameState.RUNNING)
    (htick : g.receiveTick now fresh = some g') :
    g'.field = g.field ∧ g'.falling = g.falling ∧ g'.next = g.next ∧
    g'.score = g.score ∧ g'.state = g.state ∧ g'.isSpedUp = g.isSpedUp ∧
    (g'.sinceStep = g.sinceStep ∨ g'.sinceStep = now) := by
  have hs : g.step fresh = g := step_not_running g fresh h
  have hc := receiveTick_cases g now fresh g' htick
  rw [hs] at hc
  rcases hc with rfl | rfl
  · exact ⟨rfl, rfl, rfl, rfl, rfl, rfl, Or.inr rfl⟩
  · exact ⟨rfl, rfl, rfl, rfl, rfl, rfl, Or.inl rfl⟩

/-- Witness for the amended C7: the READY game ticked at 1001 ms. -/
theorem receiveTick_nonrunning_frame_witness :
    gReady.state ≠ GameState.RUNNING ∧
      gReady.receiveTick 1001 freshT = some gReadyTicked ∧
      (gReadyTicked.field = gReady.field ∧ gReadyTicked.falling = gReady.falling ∧
        gReadyTicked.next = gReady.next ∧ gReadyTicked.score = gReady.score ∧
        gReadyTicked.state = gReady.state ∧ gReadyTicked.isSpedUp = gReady.isSpedUp ∧
        (gReadyTicked.sinceStep = gReady.sinceStep ∨ gReadyTicked.sinceStep = 1001)) :=
  ⟨by decide, by decide,
    receiveTick_nonrunning_frame gReady gReadyTicked 1001 freshT (by decide) (by decide)⟩

/-- Claim C3: for every board state (an `H × W` field, as the Rust types
guarantee), `destroy_full_rows` removes exactly the rows that are fully
occupied at the time of the call, the remaining rows settle downward
preserving their relative order with the vacated rows at the top cleared to
empty, and the returned value equals the number of rows removed; at
grounding, that returned value is exactly what is added to the score. -/
theorem destroy_full_rows_spec (W H : Nat) (f : List (List Cell))
    (g : Tetris) (fresh : PreparedShape)
    (hH : f.length = H) (hW : ∀ r ∈ f, r.length = W) :
    destroyFullRows W H f =
      (List.replicate (f.filter (fun r => rowFull W r)).length (emptyRow W) ++
        f.filter (fun r => !rowFull W r),
       (f.filter (fun r => rowFull W r)).length) ∧
    (g.groundFallingShape fresh).score =
      g.score + (destroyFullRows g.W g.H g.writtenField).2 := by
  refine ⟨destroyFullRows_closed W H f hH hW, ?_⟩
  simp only [Tetris.groundFallingShape, Tetris.spawnNewShape, Tetris.loose]
  split <;> rfl

/-- Witness for C3 on the concrete 2×3 board with full rows 0 and 2, and the
concrete running game for the grounding-score conjunct. -/
theorem destroy_full_rows_spec_witness :
    fBoard.length = 3 ∧ (∀ r ∈ fBoard, r.length = 2) ∧
      (destroyFullRows 2 3 fBoard =
        (List.replicate (fBoard.filter (fun r => rowFull 2 r)).length (emptyRow 2) ++
          fBoard.filter (fun r => !rowFull 2 r),
         (fBoard.filter (fun r => rowFull 2 r)).length) ∧
       (gRun.groundFallingShape freshT).score =
        gRun.score + (destroyFullRows gRun.W gRun.H gRun.writtenField).2) :=
  ⟨rfl, by decide, destroy_full_rows_spec 2 3 fBoard gRun freshT rfl (by decide)⟩

/-- Claim C10: during the bottom-to-top scan of `destroy_full_rows` over an
`H`-row field, the target index `y + moving` stays below `H` at every
iteration (the removal count grows by at most one per iteration while `y`
decreases by one), so every row swap, row-full check and row fill is in
bounds — the instrumented replay of the exact scan reports every access in
bounds — and the function is total. -/
theorem destroy_full_rows_in_bounds (W H : Nat) (f : List (List Cell))
    (hH : f.length = H) : destroyAuxChk W f H 0 = true :=
  destroyAuxChk_bounded W H f 0 (by omega)

/-- Witness for C10 on the concrete 2×3 board. -/
theorem destroy_full_rows_in_bounds_witness :
    fBoard.length = 3 ∧ destroyAuxChk 2 fBoard 3 0 = true :=
  ⟨rfl, destroy_full_rows_in_bounds 2 3 fBoard rfl⟩
